import Mathlib

/-!
Shallow embedding of the customer-analytics core of the repository
(modules/customer_analytics.py, class CustomerAnalytics), over exact
rational arithmetic, together with theorems settling the frozen claims.

Modelling conventions.

* A transaction row carries the columns the claims touch; order_date is a
  day number (an integer), so date subtraction in days is integer
  subtraction, matching the .dt.days accessor of the source.
* pandas float values are modelled in the rationals.  A float NaN (and the
  infinity a zero denominator would produce) is modelled as none of an
  Option, used exactly where the claims probe a zero denominator.
* pandas Series.round uses half-even tie breaking while Mathlib round is
  half-up; no stated result evaluates a round at a half-way tie.
* Calendar months (the to_period accessor) are modelled by a parameter
  monthOf from day numbers to month indices; every real calendar month
  index is a monotone function of time, which is the only property the
  cohort theorems use.
* The sample standard deviation of the churn engine (groupby std, ddof 1)
  is irrational on rational inputs, so the churn engine is parameterised
  by the std routine stdFn; the stated results hold for every such
  routine, and the concrete instances below use routines that agree with
  the true sample std on every list they are applied to (a list with at
  most one element has no sample std, NaN in pandas, none here; a constant
  list has sample std 0).
-/

/-- First-seen deduplication with an accumulator of already seen keys;
models the insertion-order behaviour of Python dict keys and of
groupby keys up to order. -/
def uniqAux {α : Type} [DecidableEq α] : List α → List α → List α
  | _, [] => []
  | seen, a :: rest =>
      if a ∈ seen then uniqAux seen rest else a :: uniqAux (a :: seen) rest

/-- The distinct elements of a list, in first-seen order. -/
def uniqList {α : Type} [DecidableEq α] (l : List α) : List α := uniqAux [] l

/-- Minimum of a list with a default for the empty list (Series.min). -/
def foldMin {α : Type} [LinearOrder α] (dflt : α) : List α → α
  | [] => dflt
  | x :: xs => xs.foldl min x

/-- Maximum of a list with a default for the empty list (Series.max). -/
def foldMax {α : Type} [LinearOrder α] (dflt : α) : List α → α
  | [] => dflt
  | x :: xs => xs.foldl max x

/-- Lexicographic comparison of character lists by code point, the order
Python uses on strings. -/
def charListLe : List Char → List Char → Bool
  | [], _ => true
  | _ :: _, [] => false
  | a :: as, b :: bs =>
      if a.toNat < b.toNat then true
      else if b.toNat < a.toNat then false
      else charListLe as bs

/-- Python's string order, on the underlying character lists. -/
def strLe (p q : String) : Bool := charListLe p.data q.data

/-- One row of the transaction table: the columns used by the analytics
engines under scrutiny. -/
structure Txn where
  customer_id : String
  order_date : ℤ
  product_name : String
  total_amount : ℚ
deriving DecidableEq

/-- Rounding to two decimals (DataFrame.round(2) of the source). -/
def round2 (x : ℚ) : ℚ := ((round (x * 100) : ℤ) : ℚ) / 100

/-- Rounding to three decimals (Series.round(3) of the source). -/
def round3 (x : ℚ) : ℚ := ((round (x * 1000) : ℤ) : ℚ) / 1000

/-- Rounding to four decimals (round(x, 4) of the source). -/
def round4 (x : ℚ) : ℚ := ((round (x * 10000) : ℤ) : ℚ) / 10000

/-- All transactions of one customer (the groupby('customer_id') group). -/
def txnsOf (txns : List Txn) (c : String) : List Txn :=
  txns.filter (fun t => decide (t.customer_id = c))

/-- The distinct customers, in sorted order (pandas groupby sorts its
keys; sorting matters only for the first-seen tie-break of ranks). -/
def customers (txns : List Txn) : List String :=
  List.insertionSort (fun a b => strLe a b = true)
    (uniqList (txns.map (fun t => t.customer_id)))

/-- self.reference_date, the maximum order_date of the dataset. -/
def referenceDate (txns : List Txn) : ℤ :=
  foldMax 0 (txns.map (fun t => t.order_date))

/-! ## Market basket engine (market_basket_analysis) -/

/-- The distinct (customer_id, order_date) basket keys, in first-seen
order.  The source's groupby sorts the keys; the order of baskets never
affects any count below, so first-seen order is used. -/
def basketKeys (txns : List Txn) : List (String × ℤ) :=
  uniqList (txns.map (fun t => (t.customer_id, t.order_date)))

/-- The product list of one basket: all product_name entries of the rows
with the given customer and date, multiplicity included (apply(list)). -/
def basketOf (txns : List Txn) (k : String × ℤ) : List String :=
  (txns.filter (fun t => decide (t.customer_id = k.1 ∧ t.order_date = k.2))).map
    (fun t => t.product_name)

/-- The list of baskets of the dataset. -/
def baskets (txns : List Txn) : List (List String) :=
  (basketKeys txns).map (basketOf txns)

/-- total_transactions: the number of baskets. -/
def totalTransactions (txns : List Txn) : ℕ := (basketKeys txns).length

/-- product_counts: occurrences of a product across the basket lists
(a product appearing twice in one basket is counted twice, as in the
source's per-product loop). -/
def productCount (txns : List Txn) (p : String) : ℕ :=
  ((baskets txns).map (fun b => (b.filter (fun q => decide (q = p))).length)).sum

/-- tuple(sorted([p, q])) of the source's pair loop. -/
def sortPair (p q : String) : String × String :=
  if strLe p q then (p, q) else (q, p)

/-- The sorted pairs contributed by one basket: one entry per ordered pair
of distinct positions (i, j), exactly as the source's double loop with
its i != j guard produces them. -/
def ordPairs (b : List String) : List (String × String) :=
  (List.range b.length).flatMap (fun i =>
    (List.range b.length).filterMap (fun j =>
      if i = j then none else some (sortPair (b.getD i "") (b.getD j ""))))

/-- The keys of product_combinations, in insertion order. -/
def pairKeys (txns : List Txn) : List (String × String) :=
  uniqList ((baskets txns).flatMap ordPairs)

/-- product_combinations: the count stored for a sorted pair. -/
def pairCount (txns : List Txn) (q : String × String) : ℕ :=
  ((baskets txns).flatMap ordPairs).count q

/-- One emitted association rule. -/
structure Rule where
  antecedent : String
  consequent : String
  support : ℚ
  confidence : ℚ
  lift : ℚ
  conviction : ℚ
deriving DecidableEq

/-- The rule record the source appends for direction a to b, with its
roundings: support and confidence to 4 decimals, lift and conviction
to 2. -/
def mkRule (txns : List Txn) (a b : String) (co T : ℚ) : Rule :=
  { antecedent := a
    consequent := b
    support := round4 (co / T)
    confidence := round4 (co / (productCount txns a : ℚ))
    lift := round2 ((co / (productCount txns a : ℚ)) / ((productCount txns b : ℚ) / T))
    conviction := round2 (1 / (1 - co / (productCount txns a : ℚ) + 0.001)) }

/-- The recommendations list before sorting: for every stored pair whose
support passes min_support, a rule in each direction whose confidence
passes min_confidence. -/
def rulesFor (txns : List Txn) (minSupport minConfidence : ℚ) : List Rule :=
  (pairKeys txns).flatMap (fun pr =>
    if minSupport ≤ (pairCount txns pr : ℚ) / (totalTransactions txns : ℚ) then
      (if minConfidence ≤ (pairCount txns pr : ℚ) / (productCount txns pr.1 : ℚ) then
        [mkRule txns pr.1 pr.2 (pairCount txns pr : ℚ) (totalTransactions txns : ℚ)]
      else [])
      ++
      (if minConfidence ≤ (pairCount txns pr : ℚ) / (productCount txns pr.2 : ℚ) then
        [mkRule txns pr.2 pr.1 (pairCount txns pr : ℚ) (totalTransactions txns : ℚ)]
      else [])
    else [])

/-- Descending lexicographic comparison on (lift, confidence), the sort
key of the source's sorted(..., reverse=True). -/
def lexGeKey (r s : Rule) : Prop :=
  s.lift < r.lift ∨ (s.lift = r.lift ∧ s.confidence ≤ r.confidence)

instance (r s : Rule) : Decidable (lexGeKey r s) := by
  unfold lexGeKey; infer_instance

/-- Stable insertion for the descending sort: an element is placed before
the elements its key does not lose to, keeping the original order of
equal keys (Python's sorted is stable). -/
def insertRuleDesc (r : Rule) : List Rule → List Rule
  | [] => [r]
  | x :: xs => if lexGeKey r x then r :: x :: xs else x :: insertRuleDesc r xs

/-- Stable descending sort by (lift, confidence). -/
def sortRulesDesc : List Rule → List Rule
  | [] => []
  | x :: xs => insertRuleDesc x (sortRulesDesc xs)

/-- association_rules: the sorted recommendations, top 20 kept. -/
def associationRules (txns : List Txn) (minSupport minConfidence : ℚ) : List Rule :=
  (sortRulesDesc (rulesFor txns minSupport minConfidence)).take 20

/-- Modelled from the spec's words, for comparison only: the number of
baskets containing both products (each basket counted once). -/
def specBasketsContainingBoth (txns : List Txn) (a b : String) : ℕ :=
  ((baskets txns).filter (fun bk => decide (a ∈ bk) && decide (b ∈ bk))).length

/-- Modelled from the spec's words, for comparison only: the number of
baskets containing a product (each basket counted once). -/
def specBasketsContaining (txns : List Txn) (a : String) : ℕ :=
  ((baskets txns).filter (fun bk => decide (a ∈ bk))).length

/-! ## Per-customer aggregations (the groupby('customer_id') columns) -/

/-- The order dates of one customer. -/
def custDates (txns : List Txn) (c : String) : List ℤ :=
  (txnsOf txns c).map (fun t => t.order_date)

/-- last_order_date (groupby max). -/
def lastOrder (txns : List Txn) (c : String) : ℤ := foldMax 0 (custDates txns c)

/-- first_order / first_purchase (groupby min). -/
def firstOrder (txns : List Txn) (c : String) : ℤ := foldMin 0 (custDates txns c)

/-- frequency / total_orders: the row count of the customer's group. -/
def frequencyN (txns : List Txn) (c : String) : ℕ := (txnsOf txns c).length

/-- recency in days, anchored at the reference date. -/
def recencyQ (txns : List Txn) (c : String) : ℚ :=
  ((referenceDate txns - lastOrder txns c : ℤ) : ℚ)

/-- The unrounded sum of the customer's total_amount column. -/
def monetaryRaw (txns : List Txn) (c : String) : ℚ :=
  ((txnsOf txns c).map (fun t => t.total_amount)).sum

/-- monetary, rounded to 2 decimals by the groupby agg round(2). -/
def monetaryQ (txns : List Txn) (c : String) : ℚ := round2 (monetaryRaw txns c)

/-- avg_order_value, rounded to 2 decimals by the groupby agg round(2). -/
def avgOrderValueQ (txns : List Txn) (c : String) : ℚ :=
  round2 (monetaryRaw txns c / (frequencyN txns c : ℚ))

/-! ## Lifetime value engine (calculate_customer_lifetime_value) -/

/-- lifespan_days: last minus first order in days, with the source's
replace(0, 1). -/
def lifespanDays (txns : List Txn) (c : String) : ℤ :=
  if lastOrder txns c - firstOrder txns c = 0 then 1
  else lastOrder txns c - firstOrder txns c

/-- avg_lifespan: the dataset-wide mean of lifespan_days. -/
def avgLifespan (txns : List Txn) : ℚ :=
  ((customers txns).map (fun c => ((lifespanDays txns c : ℤ) : ℚ))).sum
    / ((customers txns).length : ℚ)

/-- predicted_lifespan: np.where(frequency > 1, lifespan_days, avg_lifespan). -/
def predictedLifespan (txns : List Txn) (c : String) : ℚ :=
  if 1 < frequencyN txns c then ((lifespanDays txns c : ℤ) : ℚ)
  else avgLifespan txns

/-! ## RFM segment table (_categorize_rfm) -/

/-- The Champions patterns of the source table. -/
def championScores : List String := ["555", "554", "544", "545", "454", "455", "445"]

/-- The Loyal Customers patterns. -/
def loyalScores : List String := ["543", "444", "435", "355", "354", "345", "344", "335"]

/-- The Potential Loyalists patterns. -/
def potentialScores : List String :=
  ["553", "551", "552", "541", "542", "533", "532", "531", "452", "451"]

/-- The New Customers patterns. -/
def newCustomerScores : List String := ["512", "511", "422", "421", "412", "411", "311"]

/-- The At Risk patterns; note the entry 155, which also occurs in the
next branch of the source. -/
def atRiskScores : List String := ["155", "154", "144", "214", "215", "115", "114"]

/-- The Cannot Lose Them patterns, with the duplicated entry 155. -/
def cannotLoseScores : List String :=
  ["155", "254", "245", "253", "244", "243", "234", "343", "334"]

/-- The Hibernating patterns (the source list itself repeats entries). -/
def hibernatingScores : List String :=
  ["231", "241", "251", "233", "232", "223", "222", "231", "241", "251"]

/-- _categorize_rfm: the if/elif chain of the source, first match wins,
default Lost Customers. -/
def categorizeRFM (s : String) : String :=
  if s ∈ championScores then "Champions"
  else if s ∈ loyalScores then "Loyal Customers"
  else if s ∈ potentialScores then "Potential Loyalists"
  else if s ∈ newCustomerScores then "New Customers"
  else if s ∈ atRiskScores then "At Risk"
  else if s ∈ cannotLoseScores then "Cannot Lose Them"
  else if s ∈ hibernatingScores then "Hibernating"
  else "Lost Customers"

/-- All explicitly listed patterns, in branch order. -/
def allRfmPatterns : List String :=
  championScores ++ loyalScores ++ potentialScores ++ newCustomerScores
    ++ atRiskScores ++ cannotLoseScores ++ hibernatingScores

/-! ## Churn probability (identify_churn_risk, line computing churn_probability) -/

/-- churn_probability: (churn_score / 100 * 0.8 + 0.1).round(3). -/
def churnProbability (s : ℚ) : ℚ := round3 (s / 100 * 0.8 + 0.1)

/-! ## RFM quantile scoring (calculate_rfm) -/

/-- The strict order underlying Series.rank(method='first'): position j
precedes position i when its value is smaller, or equal with a smaller
index. -/
def rankLT (xs : List ℚ) (j i : ℕ) : Prop :=
  xs.getD j 0 < xs.getD i 0 ∨ (xs.getD j 0 = xs.getD i 0 ∧ j < i)

instance (xs : List ℚ) (j i : ℕ) : Decidable (rankLT xs j i) := by
  unfold rankLT; infer_instance

/-- The number of positions preceding position i in the rank order. -/
def rankOfIdx (xs : List ℚ) (i : ℕ) : ℕ :=
  ((List.range xs.length).filter (fun j => decide (rankLT xs j i))).length

/-- rankOfIdx as a Finset cardinality. -/
def cardRank (xs : List ℚ) (i : ℕ) : ℕ :=
  ((Finset.range xs.length).filter (fun j => rankLT xs j i)).card

/-- Series.rank(method='first'): one-based float ranks, ties broken by
position. -/
def rankFirst (xs : List ℚ) : List ℚ :=
  (List.range xs.length).map (fun i => (1 : ℚ) + (rankOfIdx xs i : ℚ))

/-- The recency column, in customer order. -/
def recencies (txns : List Txn) : List ℚ := (customers txns).map (recencyQ txns)

/-- The frequency column, in customer order. -/
def frequenciesQ (txns : List Txn) : List ℚ :=
  (customers txns).map (fun c => ((frequencyN txns c : ℕ) : ℚ))

/-- The monetary column (rounded to 2 decimals by the agg), in customer
order. -/
def monetaries (txns : List Txn) : List ℚ :=
  (customers txns).map (monetaryQ txns)

/-- numpy linear-interpolation quantile of a sorted list. -/
def quantileSorted (s : List ℚ) (p : ℚ) : ℚ :=
  let h : ℚ := p * ((s.length : ℚ) - 1)
  let i : ℕ := (⌊h⌋).toNat
  let x0 := s.getD i 0
  let x1 := s.getD (i + 1) x0
  x0 + (h - (i : ℚ)) * (x1 - x0)

/-- The six quantile bin edges of pd.qcut(xs, q=5). -/
def qcutEdges (xs : List ℚ) : List ℚ :=
  [0, 1/5, 2/5, 3/5, 4/5, 1].map
    (quantileSorted (List.insertionSort (fun a b => a ≤ b) xs))

/-- Strict ascent of the edge list; pandas raises on duplicate bin edges,
which for the nondecreasing quantile edges means a non-strict step. -/
def strictAscB : List ℚ → Bool
  | [] => true
  | [_] => true
  | a :: b :: t => decide (a < b) && strictAscB (b :: t)

/-- The right-closed bin of a value among the six edges (include_lowest
for the first bin). -/
def binIndex (es : List ℚ) (v : ℚ) : ℕ :=
  if v ≤ es.getD 1 0 then 0
  else if v ≤ es.getD 2 0 then 1
  else if v ≤ es.getD 3 0 then 2
  else if v ≤ es.getD 4 0 then 3
  else 4

/-- pd.qcut(xs, q=5, labels): none models the duplicate-edges ValueError
that the source's except branch turns into an empty table. -/
def qcut5 (xs : List ℚ) (labels : List ℕ) : Option (List ℕ) :=
  let es := qcutEdges xs
  if strictAscB es then some (xs.map (fun v => labels.getD (binIndex es v) 0))
  else none

/-- One row of the RFM table: the customer and its three scores. -/
structure RFMRow where
  customer_id : String
  Rscore : ℕ
  Fscore : ℕ
  Mscore : ℕ
deriving DecidableEq

/-- calculate_rfm: score every customer when all three quantile cuts
succeed; the source's except branch returns an empty table otherwise. -/
def rfmRows (txns : List Txn) : List RFMRow :=
  ((qcut5 (rankFirst (recencies txns)) [5, 4, 3, 2, 1]).bind (fun rs =>
    (qcut5 (rankFirst (frequenciesQ txns)) [1, 2, 3, 4, 5]).bind (fun fs =>
      (qcut5 (rankFirst (monetaries txns)) [1, 2, 3, 4, 5]).map (fun ms =>
        (List.range (customers txns).length).map (fun i =>
          { customer_id := (customers txns).getD i ""
            Rscore := rs.getD i 0
            Fscore := fs.getD i 0
            Mscore := ms.getD i 0 }))))).getD []

/-- The M_score column looked up by customer. -/
def MscoreOf (txns : List Txn) (c : String) : ℕ :=
  (((rfmRows txns).find? (fun r => decide (r.customer_id = c))).map
    (fun r => r.Mscore)).getD 0

/-- The F_score column looked up by customer. -/
def FscoreOf (txns : List Txn) (c : String) : ℕ :=
  (((rfmRows txns).find? (fun r => decide (r.customer_id = c))).map
    (fun r => r.Fscore)).getD 0

/-! ## Cohort engine (cohort_analysis)

The month index map monthOf is a parameter modelling to_period('M'); the
real calendar month index is a monotone function of the day number, and
monotonicity is the only property used. -/

/-- cohort_group of a customer: the month of its first order. -/
def cohortOf (monthOf : ℤ → ℤ) (txns : List Txn) (c : String) : ℤ :=
  monthOf (firstOrder txns c)

/-- period_number of a transaction: its order month minus its customer's
cohort month. -/
def periodOf (monthOf : ℤ → ℤ) (txns : List Txn) (t : Txn) : ℤ :=
  monthOf t.order_date - cohortOf monthOf txns t.customer_id

/-- The cohort groups occurring in the dataset. -/
def cohortList (monthOf : ℤ → ℤ) (txns : List Txn) : List ℤ :=
  uniqList ((customers txns).map (cohortOf monthOf txns))

/-- customer_id_x of the source's merge: the number of distinct customers
of cohort g with at least one transaction in period p. -/
def activeCount (monthOf : ℤ → ℤ) (txns : List Txn) (g p : ℤ) : ℕ :=
  ((customers txns).filter (fun c =>
    decide (cohortOf monthOf txns c = g)
      && (txnsOf txns c).any (fun t => decide (monthOf t.order_date - g = p)))).length

/-- customer_id_y of the source's merge: the cohort's initial size. -/
def cohortSize (monthOf : ℤ → ℤ) (txns : List Txn) (g : ℤ) : ℕ :=
  ((customers txns).filter (fun c => decide (cohortOf monthOf txns c = g))).length

/-- retention_rate: active customers over the cohort's initial size. -/
def retentionRate (monthOf : ℤ → ℤ) (txns : List Txn) (g p : ℤ) : ℚ :=
  (activeCount monthOf txns g p : ℚ) / (cohortSize monthOf txns g : ℚ)

/-- One cell of the cleaned retention_table (rounded to 3 decimals);
absent (cohort, period) combinations are 0 via fillna, matching this
total function because an absent combination has activeCount 0. -/
def retentionCell (monthOf : ℤ → ℤ) (txns : List Txn) (g p : ℤ) : ℚ :=
  round3 (retentionRate monthOf txns g p)

/-- The summed total_amount of cohort g's transactions in period p. -/
def periodRevenue (monthOf : ℤ → ℤ) (txns : List Txn) (g p : ℤ) : ℚ :=
  ((txns.filter (fun t =>
      decide (cohortOf monthOf txns t.customer_id = g)
        && decide (periodOf monthOf txns t = p))).map (fun t => t.total_amount)).sum

/-- revenue_per_customer: the period revenue divided by customer_id_y,
the cohort's initial size (not the active-customer count). -/
def revenuePerCustomer (monthOf : ℤ → ℤ) (txns : List Txn) (g p : ℤ) : ℚ :=
  periodRevenue monthOf txns g p / (cohortSize monthOf txns g : ℚ)

/-- One cell of the cleaned revenue_table (rounded to 2 decimals). -/
def revenueCell (monthOf : ℤ → ℤ) (txns : List Txn) (g p : ℤ) : ℚ :=
  round2 (revenuePerCustomer monthOf txns g p)

/-- One cell of count_table: the raw active-customer count. -/
def countCell (monthOf : ℤ → ℤ) (txns : List Txn) (g p : ℤ) : ℕ :=
  activeCount monthOf txns g p

/-! ## Churn risk engine (identify_churn_risk) -/

/-- unique_products: the nunique of product_name per customer. -/
def uniqueProducts (txns : List Txn) (c : String) : ℕ :=
  (uniqList ((txnsOf txns c).map (fun t => t.product_name))).length

/-- days_since_first: the reference date minus the first purchase. -/
def daysSinceFirst (txns : List Txn) (c : String) : ℤ :=
  referenceDate txns - firstOrder txns c

/-- order_frequency = total_orders / days_since_first * 30.  A zero day
count yields infinity in pandas; no stated result evaluates that case
(the total division on the rationals gives 0 there). -/
def orderFrequency (txns : List Txn) (c : String) : ℚ :=
  (frequencyN txns c : ℚ) / ((daysSinceFirst txns c : ℤ) : ℚ) * 30

/-- purchase_consistency = order_value_std / avg_order_value; none models
the NaN of the ddof-1 std of a single order. -/
def purchaseConsistency (stdFn : List ℚ → Option ℚ) (txns : List Txn)
    (c : String) : Option ℚ :=
  (stdFn ((txnsOf txns c).map (fun t => t.total_amount))).map
    (fun s => s / avgOrderValueQ txns c)

/-- purchase_diversity = unique_products / total_orders; for a customer of
the table the group is nonempty, so this is never NaN and the source's
fillna(0.5) on it is the identity. -/
def purchaseDiversity (txns : List Txn) (c : String) : ℚ :=
  (uniqueProducts txns c : ℚ) / (frequencyN txns c : ℚ)

/-- The raw composite churn score of lines 420 to 427.  Note the second
weighted term uses the raw frequency column of the RFM table (the order
count), and a missing consistency defaults to 1 via fillna before
weighting. -/
def churnRawScore (stdFn : List ℚ → Option ℚ) (txns : List Txn) (c : String) : ℚ :=
  recencyQ txns c * 0.25
  + (6 - (frequencyN txns c : ℚ)) * 8 * 0.20
  + (6 - (MscoreOf txns c : ℚ)) * 8 * 0.20
  + (1 / (orderFrequency txns c + 0.1)) * 100 * 0.15
  + (purchaseConsistency stdFn txns c).getD 1 * 20 * 0.10
  + (1 - purchaseDiversity txns c) * 50 * 0.10

/-- Modelled from the spec's words, for comparison only (the claim's
formula): the same composite with the 1-5 F score in place of the raw
frequency. -/
def specChurnScoreWithFScore (stdFn : List ℚ → Option ℚ) (txns : List Txn)
    (c : String) : ℚ :=
  recencyQ txns c * 0.25
  + (6 - (FscoreOf txns c : ℚ)) * 8 * 0.20
  + (6 - (MscoreOf txns c : ℚ)) * 8 * 0.20
  + (1 / (orderFrequency txns c + 0.1)) * 100 * 0.15
  + (purchaseConsistency stdFn txns c).getD 1 * 20 * 0.10
  + (1 - purchaseDiversity txns c) * 50 * 0.10

/-- NaN-aware division for the min-max normalization: none when the
denominator is 0 (the numerator is 0 there too, the float NaN case). -/
def nanDiv (a b : ℚ) : Option ℚ := if b = 0 then none else some (a / b)

/-- The raw composite scores of the table's rows. -/
def rawChurnScores (stdFn : List ℚ → Option ℚ) (txns : List Txn) : List ℚ :=
  (rfmRows txns).map (fun r => churnRawScore stdFn txns r.customer_id)

/-- The min-max normalization of one raw score:
(x - min) / (max - min) * 100. -/
def normalizedChurnScore (stdFn : List ℚ → Option ℚ) (txns : List Txn)
    (x : ℚ) : Option ℚ :=
  (nanDiv (x - foldMin 0 (rawChurnScores stdFn txns))
      (foldMax 0 (rawChurnScores stdFn txns)
        - foldMin 0 (rawChurnScores stdFn txns))).map (fun q => q * 100)

/-- pd.cut on the bins [0, 25, 50, 75, 100] with include_lowest; a NaN
score gets no tier, and neither does a value outside the bins. -/
def riskCut : Option ℚ → Option String
  | none => none
  | some s =>
      if s < 0 then none
      else if s ≤ 25 then some "Low"
      else if s ≤ 50 then some "Medium"
      else if s ≤ 75 then some "High"
      else if s ≤ 100 then some "Critical"
      else none

/-- One output row of identify_churn_risk: the claim-relevant columns. -/
structure ChurnRow where
  customer_id : String
  churn_score : Option ℚ
  churn_probability : Option ℚ
  risk_level : Option String
deriving DecidableEq

/-- identify_churn_risk: the early return gives an empty table when the
RFM table is empty; otherwise one row per RFM row.  The final sort by
churn_score is omitted here: no claim concerns row order. -/
def churnTable (stdFn : List ℚ → Option ℚ) (txns : List Txn) : List ChurnRow :=
  if rfmRows txns = [] then []
  else
    (rfmRows txns).map (fun r =>
      { customer_id := r.customer_id
        churn_score :=
          normalizedChurnScore stdFn txns (churnRawScore stdFn txns r.customer_id)
        churn_probability :=
          (normalizedChurnScore stdFn txns
            (churnRawScore stdFn txns r.customer_id)).map churnProbability
        risk_level :=
          riskCut (normalizedChurnScore stdFn txns
            (churnRawScore stdFn txns r.customer_id)) })

/-- A std routine for the concrete churn instances below: none on lists
with at most one element (the NaN of the ddof-1 sample std), and 0 on
longer constant lists, their true sample std.  Every list it is applied
to in this development is of one of these two shapes, so it agrees with
the pandas std everywhere it is used. -/
def stdZero : List ℚ → Option ℚ := fun xs =>
  if xs.length ≤ 1 then none
  else if ∀ x ∈ xs, x = xs.getD 0 0 then some 0 else none

/-! ## Shared helper lemmas -/

lemma mem_uniqAux {α : Type} [DecidableEq α] (a : α) :
    ∀ (l seen : List α), a ∈ uniqAux seen l ↔ a ∈ l ∧ a ∉ seen := by
  intro l
  induction l with
  | nil => intro seen; simp [uniqAux]
  | cons b rest ih =>
      intro seen
      by_cases hb : b ∈ seen
      · rw [uniqAux, if_pos hb, ih]
        constructor
        · rintro ⟨h1, h2⟩; exact ⟨List.mem_cons_of_mem b h1, h2⟩
        · rintro ⟨h1, h2⟩
          rcases List.mem_cons.1 h1 with rfl | h1
          · exact absurd hb h2
          · exact ⟨h1, h2⟩
      · rw [uniqAux, if_neg hb]
        constructor
        · intro h
          rcases List.mem_cons.1 h with rfl | h
          · exact ⟨List.mem_cons_self a rest, hb⟩
          · obtain ⟨h1, h2⟩ := (ih (b :: seen)).1 h
            exact ⟨List.mem_cons_of_mem b h1,
              fun hs => h2 (List.mem_cons_of_mem b hs)⟩
        · rintro ⟨h1, h2⟩
          rcases List.mem_cons.1 h1 with rfl | h1
          · exact List.mem_cons_self a _
          · by_cases hab : a = b
            · rw [hab]; exact List.mem_cons_self b _
            · refine List.mem_cons_of_mem b ((ih (b :: seen)).2 ⟨h1, ?_⟩)
              intro hs
              rcases List.mem_cons.1 hs with h | h
              · exact hab h
              · exact h2 h

lemma mem_uniqList {α : Type} [DecidableEq α] {a : α} {l : List α} :
    a ∈ uniqList l ↔ a ∈ l := by
  simp [uniqList, mem_uniqAux]

lemma mem_customers {txns : List Txn} {c : String} :
    c ∈ customers txns ↔ ∃ t ∈ txns, t.customer_id = c := by
  unfold customers
  rw [(List.perm_insertionSort _ _).mem_iff, mem_uniqList, List.mem_map]

lemma mem_txnsOf {txns : List Txn} {c : String} {t : Txn} :
    t ∈ txnsOf txns c ↔ t ∈ txns ∧ t.customer_id = c := by
  simp [txnsOf]

lemma txnsOf_ne_nil {txns : List Txn} {c : String} (h : c ∈ customers txns) :
    txnsOf txns c ≠ [] := by
  obtain ⟨t, ht, rfl⟩ := mem_customers.1 h
  exact List.ne_nil_of_mem (mem_txnsOf.2 ⟨ht, rfl⟩)

lemma foldl_min_le_init {α : Type} [LinearOrder α] :
    ∀ (xs : List α) (x : α), xs.foldl min x ≤ x := by
  intro xs
  induction xs with
  | nil => intro x; exact le_refl x
  | cons y ys ih =>
      intro x
      calc (y :: ys).foldl min x = ys.foldl min (min x y) := rfl
        _ ≤ min x y := ih (min x y)
        _ ≤ x := min_le_left x y

lemma foldl_min_le_mem {α : Type} [LinearOrder α] :
    ∀ (xs : List α) (x a : α), a ∈ xs → xs.foldl min x ≤ a := by
  intro xs
  induction xs with
  | nil => intro x a ha; exact absurd ha (List.not_mem_nil a)
  | cons y ys ih =>
      intro x a ha
      rcases List.mem_cons.1 ha with rfl | ha
      · calc (a :: ys).foldl min x = ys.foldl min (min x a) := rfl
          _ ≤ min x a := foldl_min_le_init ys (min x a)
          _ ≤ a := min_le_right x a
      · exact ih (min x y) a ha

lemma foldl_min_mem {α : Type} [LinearOrder α] :
    ∀ (xs : List α) (x : α), xs.foldl min x ∈ x :: xs := by
  intro xs
  induction xs with
  | nil => intro x; exact List.mem_singleton.2 rfl
  | cons y ys ih =>
      intro x
      have h := ih (min x y)
      rcases List.mem_cons.1 h with h | h
      · rcases min_choice x y with hm | hm
        · exact List.mem_cons.2 (Or.inl (h.trans hm))
        · exact List.mem_cons.2 (Or.inr (List.mem_cons.2 (Or.inl (h.trans hm))))
      · exact List.mem_cons.2 (Or.inr (List.mem_cons.2 (Or.inr h)))

lemma foldl_le_max_init {α : Type} [LinearOrder α] :
    ∀ (xs : List α) (x : α), x ≤ xs.foldl max x := by
  intro xs
  induction xs with
  | nil => intro x; exact le_refl x
  | cons y ys ih =>
      intro x
      calc x ≤ max x y := le_max_left x y
        _ ≤ ys.foldl max (max x y) := ih (max x y)
        _ = (y :: ys).foldl max x := rfl

lemma foldl_le_max_mem {α : Type} [LinearOrder α] :
    ∀ (xs : List α) (x a : α), a ∈ xs → a ≤ xs.foldl max x := by
  intro xs
  induction xs with
  | nil => intro x a ha; exact absurd ha (List.not_mem_nil a)
  | cons y ys ih =>
      intro x a ha
      rcases List.mem_cons.1 ha with rfl | ha
      · calc a ≤ max x a := le_max_right x a
          _ ≤ ys.foldl max (max x a) := foldl_le_max_init ys (max x a)
          _ = (a :: ys).foldl max x := rfl
      · exact ih (max x y) a ha

lemma foldl_max_mem {α : Type} [LinearOrder α] :
    ∀ (xs : List α) (x : α), xs.foldl max x ∈ x :: xs := by
  intro xs
  induction xs with
  | nil => intro x; exact List.mem_singleton.2 rfl
  | cons y ys ih =>
      intro x
      have h := ih (max x y)
      rcases List.mem_cons.1 h with h | h
      · rcases max_choice x y with hm | hm
        · exact List.mem_cons.2 (Or.inl (h.trans hm))
        · exact List.mem_cons.2 (Or.inr (List.mem_cons.2 (Or.inl (h.trans hm))))
      · exact List.mem_cons.2 (Or.inr (List.mem_cons.2 (Or.inr h)))

lemma foldMin_le {α : Type} [LinearOrder α] {l : List α} {a : α} (d : α)
    (ha : a ∈ l) : foldMin d l ≤ a := by
  cases l with
  | nil => exact absurd ha (List.not_mem_nil a)
  | cons x xs =>
      rcases List.mem_cons.1 ha with rfl | ha
      · exact foldl_min_le_init xs a
      · exact foldl_min_le_mem xs x a ha

lemma le_foldMax {α : Type} [LinearOrder α] {l : List α} {a : α} (d : α)
    (ha : a ∈ l) : a ≤ foldMax d l := by
  cases l with
  | nil => exact absurd ha (List.not_mem_nil a)
  | cons x xs =>
      rcases List.mem_cons.1 ha with rfl | ha
      · exact foldl_le_max_init xs a
      · exact foldl_le_max_mem xs x a ha

lemma foldMin_mem {α : Type} [LinearOrder α] {l : List α} (d : α)
    (hl : l ≠ []) : foldMin d l ∈ l := by
  cases l with
  | nil => exact absurd rfl hl
  | cons x xs => exact foldl_min_mem xs x

lemma foldMax_mem {α : Type} [LinearOrder α] {l : List α} (d : α)
    (hl : l ≠ []) : foldMax d l ∈ l := by
  cases l with
  | nil => exact absurd rfl hl
  | cons x xs => exact foldl_max_mem xs x

lemma round_mono_q {x y : ℚ} (h : x ≤ y) : round x ≤ round y := by
  rw [round_eq, round_eq]
  exact Int.floor_le_floor (by linarith)

/-! ## Theorems for claims C1 and C4 -/

/-- C1.  The pair loop of market_basket_analysis visits every ordered pair
of distinct positions and keys them by the sorted tuple, so each
co-occurring unordered pair is counted twice per basket.  On a dataset
with a single basket containing products A and B once each, the emitted
rule A to B therefore reports support 2 and confidence 2, while the
claim's formulas (baskets containing both divided by total baskets, and
divided by baskets containing A) both give 1.  The claim is right about
the intended metrics and the code double-counts. -/
theorem market_basket_pair_double_count_example :
    (associationRules
        [⟨"c", 0, "A", 1⟩, ⟨"c", 0, "B", 1⟩] (1/100) (1/2)).map
      (fun r => (r.antecedent, r.consequent, r.support, r.confidence))
      = [("A", "B", 2, 2), ("B", "A", 2, 2)]
    ∧ specBasketsContainingBoth [⟨"c", 0, "A", 1⟩, ⟨"c", 0, "B", 1⟩] "A" "B" = 1
    ∧ specBasketsContaining [⟨"c", 0, "A", 1⟩, ⟨"c", 0, "B", 1⟩] "A" = 1
    ∧ totalTransactions [⟨"c", 0, "A", 1⟩, ⟨"c", 0, "B", 1⟩] = 1
    ∧ ((2 : ℚ) ≠ 1 / 1) := by
  refine ⟨?_, by decide, by decide, by decide, by norm_num⟩
  norm_num +decide [associationRules, rulesFor, pairKeys, pairCount, baskets,
    basketKeys, basketOf, ordPairs, uniqList, uniqAux, totalTransactions,
    productCount, sortPair, strLe, charListLe, mkRule, round4, round2,
    sortRulesDesc, insertRuleDesc, lexGeKey, round_eq, List.flatMap,
    List.filterMap, List.range, List.range.loop]

/-- C4.  Because co-occurrence is double-counted (see C1), an emitted
rule's confidence can exceed 1: on a single basket with products X and Y
the code emits both directional rules with confidence 2, violating the
claimed bound confidence in (0, 1].  The lift > 0 half of the claim holds
here (lift = 2). -/
theorem market_basket_confidence_above_one_example :
    (associationRules
        [⟨"d", 5, "X", 2⟩, ⟨"d", 5, "Y", 3⟩] (1/100) (1/2)).map
      (fun r => (r.confidence, r.lift))
      = [(2, 2), (2, 2)]
    ∧ ¬ ((2 : ℚ) ≤ 1)
    ∧ (0 : ℚ) < 2 := by
  refine ⟨?_, by norm_num, by norm_num⟩
  norm_num +decide [associationRules, rulesFor, pairKeys, pairCount, baskets,
    basketKeys, basketOf, ordPairs, uniqList, uniqAux, totalTransactions,
    productCount, sortPair, strLe, charListLe, mkRule, round4, round2,
    sortRulesDesc, insertRuleDesc, lexGeKey, round_eq, List.flatMap,
    List.filterMap, List.range, List.range.loop]

/-! ## Theorems for claim C8 -/

/-- C8.  Segment assignment is a total deterministic function of the
RFM_score string (it is a Lean function of the string alone): any score
matched by no explicit pattern falls through every branch to Lost
Customers, and the duplicated entry 155 is caught by its first-listed
branch, At Risk, never reaching Cannot Lose Them. -/
theorem rfm_segment_first_match_and_default (s : String) :
    (s ∉ allRfmPatterns → categorizeRFM s = "Lost Customers")
    ∧ categorizeRFM "155" = "At Risk"
    ∧ categorizeRFM "155" ≠ "Cannot Lose Them" := by
  refine ⟨fun h => ?_, by decide, by decide⟩
  have h1 : s ∉ championScores := fun hs => h (by simp [allRfmPatterns, hs])
  have h2 : s ∉ loyalScores := fun hs => h (by simp [allRfmPatterns, hs])
  have h3 : s ∉ potentialScores := fun hs => h (by simp [allRfmPatterns, hs])
  have h4 : s ∉ newCustomerScores := fun hs => h (by simp [allRfmPatterns, hs])
  have h5 : s ∉ atRiskScores := fun hs => h (by simp [allRfmPatterns, hs])
  have h6 : s ∉ cannotLoseScores := fun hs => h (by simp [allRfmPatterns, hs])
  have h7 : s ∉ hibernatingScores := fun hs => h (by simp [allRfmPatterns, hs])
  simp [categorizeRFM, h1, h2, h3, h4, h5, h6, h7]

/-- Witness for C8 at the unmatched score 000. -/
theorem rfm_segment_first_match_and_default_witness :
    ("000" ∉ allRfmPatterns ∧ categorizeRFM "000" = "Lost Customers")
    ∧ categorizeRFM "155" = "At Risk" :=
  ⟨⟨by decide, (rfm_segment_first_match_and_default "000").1 (by decide)⟩,
   (rfm_segment_first_match_and_default "000").2.1⟩

/-! ## Theorems for claim C6 -/

/-- C6 (amended).  churn_probability equals churn_score/100 times 0.8 plus
0.1 rounded to three decimals, as the source emits it, and lies in
[0.1, 0.9] for any churn_score in [0, 100]. -/
theorem churn_probability_formula_and_bounds (s : ℚ) (h0 : 0 ≤ s) (h1 : s ≤ 100) :
    churnProbability s = round3 (s / 100 * 0.8 + 0.1)
    ∧ 1/10 ≤ churnProbability s ∧ churnProbability s ≤ 9/10 := by
  have harg : (s / 100 * 0.8 + 0.1) * 1000 = 8 * s + 100 := by ring
  have hlo : (100 : ℤ) ≤ round ((8 * s + 100 : ℚ)) := by
    have h2 : ((100 : ℤ) : ℚ) ≤ (8 * s + 100 : ℚ) := by push_cast; linarith
    have h3 := round_mono_q h2
    rwa [round_intCast] at h3
  have hhi : round ((8 * s + 100 : ℚ)) ≤ (900 : ℤ) := by
    have h2 : (8 * s + 100 : ℚ) ≤ ((900 : ℤ) : ℚ) := by push_cast; linarith
    have h3 := round_mono_q h2
    rwa [round_intCast] at h3
  refine ⟨rfl, ?_, ?_⟩
  · unfold churnProbability round3
    rw [harg]
    have h4 : (100 : ℚ) ≤ ((round ((8 * s + 100 : ℚ)) : ℤ) : ℚ) := by
      exact_mod_cast hlo
    linarith
  · unfold churnProbability round3
    rw [harg]
    have h4 : ((round ((8 * s + 100 : ℚ)) : ℤ) : ℚ) ≤ (900 : ℚ) := by
      exact_mod_cast hhi
    linarith

/-- Witness for C6 at churn_score 50. -/
theorem churn_probability_formula_and_bounds_witness :
    (0 : ℚ) ≤ 50 ∧ (50 : ℚ) ≤ 100 ∧ 1/10 ≤ churnProbability 50 :=
  ⟨by norm_num, by norm_num,
   (churn_probability_formula_and_bounds 50 (by norm_num) (by norm_num)).2.1⟩

/-- Counterexample for C6 as frozen: because of the round(3), the emitted
churn_probability is not literally churn_score/100 times 0.8 plus 0.1; at
churn_score 0.001 the exact value 0.1000008 is emitted as 0.1. -/
theorem churn_probability_not_exact :
    churnProbability (1/1000) ≠ (1/1000) / 100 * 0.8 + 0.1 := by
  have h : churnProbability (1/1000) = 1/10 := by
    norm_num [churnProbability, round3, round_eq]
  rw [h]; norm_num

/-! ## Theorems for claim C7 -/

/-- C7.  lifespan_days is last minus first order floored at 1 (the
replace(0, 1) equals the floor because the difference is never negative),
so it is at least 1; predicted_lifespan is lifespan_days for customers
with more than one order and the dataset-wide mean lifespan otherwise. -/
theorem clv_lifespan_floor_and_predicted (txns : List Txn) (c : String)
    (hc : c ∈ customers txns) :
    lifespanDays txns c = max (lastOrder txns c - firstOrder txns c) 1
    ∧ 1 ≤ lifespanDays txns c
    ∧ (1 < frequencyN txns c →
        predictedLifespan txns c = ((lifespanDays txns c : ℤ) : ℚ))
    ∧ (frequencyN txns c ≤ 1 → predictedLifespan txns c = avgLifespan txns) := by
  have hne : custDates txns c ≠ [] := by
    intro hmap
    exact txnsOf_ne_nil hc (List.map_eq_nil_iff.1 hmap)
  have hfl : firstOrder txns c ≤ lastOrder txns c :=
    foldMin_le (0 : ℤ) (foldMax_mem (0 : ℤ) hne)
  refine ⟨?_, ?_, ?_, ?_⟩
  · unfold lifespanDays
    rcases eq_or_ne (lastOrder txns c - firstOrder txns c) 0 with h | h
    · rw [if_pos h, h]; decide
    · rw [if_neg h]
      have h1 : 1 ≤ lastOrder txns c - firstOrder txns c := by omega
      rw [max_eq_left h1]
  · unfold lifespanDays
    split_ifs with h <;> omega
  · intro h; unfold predictedLifespan; rw [if_pos h]
  · intro h; unfold predictedLifespan; rw [if_neg (by omega)]

/-- Witness for C7 on a two-customer dataset. -/
theorem clv_lifespan_floor_and_predicted_witness :
    ("w" ∈ customers [⟨"w", 0, "P", 5⟩, ⟨"w", 3, "P", 7⟩, ⟨"v", 2, "Q", 1⟩])
    ∧ lifespanDays [⟨"w", 0, "P", 5⟩, ⟨"w", 3, "P", 7⟩, ⟨"v", 2, "Q", 1⟩] "w"
        = max (lastOrder [⟨"w", 0, "P", 5⟩, ⟨"w", 3, "P", 7⟩, ⟨"v", 2, "Q", 1⟩] "w"
            - firstOrder [⟨"w", 0, "P", 5⟩, ⟨"w", 3, "P", 7⟩, ⟨"v", 2, "Q", 1⟩] "w") 1 :=
  ⟨by decide,
   (clv_lifespan_floor_and_predicted _ "w" (by decide)).1⟩

/-! ## Theorems for claim C5 -/

/-- C5.  For every cohort occurring in the data, the retention table shows
exactly 1.0 at period 0 (every cohort member has a transaction in its
first month, so the active count equals the cohort size), and every
transaction's period_number is nonnegative, for any monotone month index
map. -/
theorem cohort_retention_full_at_period_zero (monthOf : ℤ → ℤ) (txns : List Txn)
    (g : ℤ) (hmono : Monotone monthOf) (hg : g ∈ cohortList monthOf txns) :
    retentionCell monthOf txns g 0 = 1
    ∧ retentionRate monthOf txns g 0 = 1
    ∧ ∀ t ∈ txns, 0 ≤ periodOf monthOf txns t := by
  have hper : ∀ t ∈ txns, 0 ≤ periodOf monthOf txns t := by
    intro t ht
    have htm : t ∈ txnsOf txns t.customer_id := mem_txnsOf.2 ⟨ht, rfl⟩
    have hdm : t.order_date ∈ custDates txns t.customer_id :=
      List.mem_map_of_mem _ htm
    have hfo : firstOrder txns t.customer_id ≤ t.order_date := foldMin_le 0 hdm
    have hm := hmono hfo
    unfold periodOf cohortOf
    omega
  have hactive : activeCount monthOf txns g 0 = cohortSize monthOf txns g := by
    unfold activeCount cohortSize
    have hcong : (customers txns).filter (fun c =>
        decide (cohortOf monthOf txns c = g)
          && (txnsOf txns c).any (fun t => decide (monthOf t.order_date - g = 0)))
        = (customers txns).filter (fun c => decide (cohortOf monthOf txns c = g)) := by
      apply List.filter_congr
      intro c hc
      by_cases hcg : cohortOf monthOf txns c = g
      · have hany : (txnsOf txns c).any
            (fun t => decide (monthOf t.order_date - g = 0)) = true := by
          rw [List.any_eq_true]
          have hne : custDates txns c ≠ [] := fun hmap =>
            txnsOf_ne_nil hc (List.map_eq_nil_iff.1 hmap)
          obtain ⟨t, htm, hdate⟩ := List.mem_map.1 (foldMin_mem 0 hne)
          refine ⟨t, htm, ?_⟩
          have hmonth : monthOf t.order_date = g := by
            rw [hdate]
            exact hcg
          simp [hmonth]
        simp [hcg, hany]
      · simp [hcg]
    rw [hcong]
  have hpos : 0 < cohortSize monthOf txns g := by
    obtain ⟨c, hc, hcg⟩ := List.mem_map.1 (mem_uniqList.1 hg)
    have hmem : c ∈ (customers txns).filter
        (fun c => decide (cohortOf monthOf txns c = g)) :=
      List.mem_filter.2 ⟨hc, by simp [hcg]⟩
    unfold cohortSize
    exact List.length_pos.2 (List.ne_nil_of_mem hmem)
  have hrate : retentionRate monthOf txns g 0 = 1 := by
    unfold retentionRate
    rw [hactive]
    exact div_self (Nat.cast_ne_zero.2 hpos.ne')
  refine ⟨?_, hrate, hper⟩
  unfold retentionCell
  rw [hrate]
  norm_num [round3, round_eq]

/-- Witness for C5: a one-transaction dataset with the identity month
map. -/
theorem cohort_retention_full_at_period_zero_witness :
    Monotone (id : ℤ → ℤ)
    ∧ ((0 : ℤ) ∈ cohortList id [⟨"a", 0, "P", 5⟩])
    ∧ retentionCell id [⟨"a", 0, "P", 5⟩] 0 0 = 1 :=
  ⟨monotone_id, by decide,
   (cohort_retention_full_at_period_zero id [⟨"a", 0, "P", 5⟩] 0
      monotone_id (by decide)).1⟩

/-! ## Theorems for claim C3 -/

/-- C3 (amended).  A revenue_table cell (before its 2-decimal output
rounding) times the cohort's initial size equals the total revenue of
that cohort's transactions in that period: the source divides the period
revenue by customer_id_y, the cohort size, not by the active-customer
count of count_table. -/
theorem cohort_revenue_times_cohort_size (monthOf : ℤ → ℤ) (txns : List Txn)
    (g p : ℤ) :
    revenuePerCustomer monthOf txns g p * (cohortSize monthOf txns g : ℚ)
      = periodRevenue monthOf txns g p := by
  unfold revenuePerCustomer
  rcases eq_or_ne (cohortSize monthOf txns g) 0 with h | h
  · have hfalse : ∀ t ∈ txns,
        (decide (cohortOf monthOf txns t.customer_id = g)
          && decide (periodOf monthOf txns t = p)) = false := by
      intro t ht
      by_cases hcg : cohortOf monthOf txns t.customer_id = g
      · exfalso
        have hc : t.customer_id ∈ customers txns := mem_customers.2 ⟨t, ht, rfl⟩
        have hmem : t.customer_id ∈ (customers txns).filter
            (fun c => decide (cohortOf monthOf txns c = g)) :=
          List.mem_filter.2 ⟨hc, by simp [hcg]⟩
        have hpos := List.length_pos.2 (List.ne_nil_of_mem hmem)
        unfold cohortSize at h
        omega
      · simp [hcg]
    have hrev : periodRevenue monthOf txns g p = 0 := by
      unfold periodRevenue
      have hnil : txns.filter (fun t =>
          decide (cohortOf monthOf txns t.customer_id = g)
            && decide (periodOf monthOf txns t = p)) = [] := by
        rw [List.filter_eq_nil_iff]
        intro t ht
        simp [hfalse t ht]
      rw [hnil]
      simp
    rw [hrev, h]
    simp
  · rw [div_mul_cancel₀ _ (Nat.cast_ne_zero.2 h)]

/-- Counterexample for C3 as frozen: two customers a and b share cohort
month 0; only a returns in month 1 spending 100.  The revenue cell is
100 divided by the cohort size 2, so cell times count_table gives
50 times 1 = 50, not the period's revenue 100 — far beyond any rounding
tolerance. -/
theorem cohort_revenue_roundtrip_fails :
    periodRevenue id [⟨"a", 0, "P", 10⟩, ⟨"b", 0, "P", 10⟩, ⟨"a", 1, "P", 100⟩] 0 1
      = 100
    ∧ revenueCell id [⟨"a", 0, "P", 10⟩, ⟨"b", 0, "P", 10⟩, ⟨"a", 1, "P", 100⟩] 0 1
        * ((countCell id [⟨"a", 0, "P", 10⟩, ⟨"b", 0, "P", 10⟩, ⟨"a", 1, "P", 100⟩] 0 1 : ℕ) : ℚ)
      = 50
    ∧ ((50 : ℚ) ≠ 100) := by
  refine ⟨?_, ?_, by norm_num⟩
  · norm_num +decide [periodRevenue, periodOf, cohortOf, firstOrder, custDates,
      txnsOf, customers, uniqList, uniqAux, foldMin, List.insertionSort,
      List.orderedInsert, strLe, charListLe]
  · norm_num +decide [revenueCell, revenuePerCustomer, periodRevenue, countCell,
      activeCount, cohortSize, periodOf, cohortOf, firstOrder, custDates,
      txnsOf, customers, uniqList, uniqAux, foldMin, List.insertionSort,
      List.orderedInsert, strLe, charListLe, round2, round_eq]

/-! ## Rank and quantile lemmas for claim C9 -/

lemma rankLT_irrefl (xs : List ℚ) (i : ℕ) : ¬ rankLT xs i i := by
  simp [rankLT]

lemma rankLT_trans (xs : List ℚ) {a b c : ℕ} (h1 : rankLT xs a b)
    (h2 : rankLT xs b c) : rankLT xs a c := by
  rcases h1 with h1 | ⟨e1, l1⟩
  · rcases h2 with h2 | ⟨e2, l2⟩
    · exact Or.inl (h1.trans h2)
    · exact Or.inl (by rw [← e2]; exact h1)
  · rcases h2 with h2 | ⟨e2, l2⟩
    · exact Or.inl (by rw [e1]; exact h2)
    · exact Or.inr ⟨e1.trans e2, l1.trans l2⟩

lemma rankLT_total (xs : List ℚ) {a b : ℕ} (hab : a ≠ b) :
    rankLT xs a b ∨ rankLT xs b a := by
  rcases lt_trichotomy (xs.getD a 0) (xs.getD b 0) with h | h | h
  · exact Or.inl (Or.inl h)
  · rcases Nat.lt_or_ge a b with hn | hn
    · exact Or.inl (Or.inr ⟨h, hn⟩)
    · exact Or.inr (Or.inr ⟨h.symm, lt_of_le_of_ne hn (Ne.symm hab)⟩)
  · exact Or.inr (Or.inl h)

lemma length_filter_range_eq_card (n : ℕ) (P : ℕ → Prop) [DecidablePred P] :
    ((List.range n).filter (fun j => decide (P j))).length
      = ((Finset.range n).filter P).card := by
  induction n with
  | zero => simp
  | succ n ih =>
      rw [List.range_succ, List.filter_append, List.length_append,
        Finset.range_succ, Finset.filter_insert]
      by_cases h : P n
      · rw [if_pos h, Finset.card_insert_of_not_mem (fun hmem =>
          absurd (Finset.mem_range.1 (Finset.mem_filter.1 hmem).1) (lt_irrefl n))]
        simp [h, ih]
      · rw [if_neg h]
        simp [h, ih]

lemma rankOfIdx_eq_cardRank (xs : List ℚ) (i : ℕ) :
    rankOfIdx xs i = cardRank xs i :=
  length_filter_range_eq_card xs.length (fun j => rankLT xs j i)

lemma cardRank_strict (xs : List ℚ) {a b : ℕ} (ha : a < xs.length)
    (h : rankLT xs a b) : cardRank xs a < cardRank xs b := by
  apply Finset.card_lt_card
  rw [Finset.ssubset_iff_of_subset]
  · exact ⟨a, Finset.mem_filter.2 ⟨Finset.mem_range.2 ha, h⟩,
      fun hmem => rankLT_irrefl xs a (Finset.mem_filter.1 hmem).2⟩
  · intro j hj
    obtain ⟨hjr, hja⟩ := Finset.mem_filter.1 hj
    exact Finset.mem_filter.2 ⟨hjr, rankLT_trans xs hja h⟩

lemma cardRank_lt_length (xs : List ℚ) {i : ℕ} (hi : i < xs.length) :
    cardRank xs i < xs.length := by
  have hsub : (Finset.range xs.length).filter (fun j => rankLT xs j i)
      ⊆ (Finset.range xs.length).erase i := by
    intro j hj
    obtain ⟨hjr, hji⟩ := Finset.mem_filter.1 hj
    exact Finset.mem_erase.2 ⟨fun hji' => rankLT_irrefl xs i (hji' ▸ hji), hjr⟩
  calc cardRank xs i ≤ ((Finset.range xs.length).erase i).card :=
        Finset.card_le_card hsub
    _ = xs.length - 1 := by
        rw [Finset.card_erase_of_mem (Finset.mem_range.2 hi), Finset.card_range]
    _ < xs.length := by omega

lemma cardRank_injOn (xs : List ℚ) :
    Set.InjOn (cardRank xs) (Finset.range xs.length) := by
  intro a ha b hb hab
  by_contra hne
  rcases rankLT_total xs hne with h | h
  · exact absurd hab
      (cardRank_strict xs (Finset.mem_range.1 (Finset.mem_coe.1 ha)) h).ne
  · exact absurd hab.symm
      (cardRank_strict xs (Finset.mem_range.1 (Finset.mem_coe.1 hb)) h).ne

lemma cardRank_image (xs : List ℚ) :
    (Finset.range xs.length).image (cardRank xs) = Finset.range xs.length := by
  apply Finset.eq_of_subset_of_card_le
  · intro m hm
    obtain ⟨i, hi, rfl⟩ := Finset.mem_image.1 hm
    exact Finset.mem_range.2 (cardRank_lt_length xs (Finset.mem_range.1 hi))
  · rw [Finset.card_image_of_injOn (cardRank_injOn xs)]

lemma map_cardRank_perm (xs : List ℚ) :
    List.Perm ((List.range xs.length).map (cardRank xs)) (List.range xs.length) := by
  rw [← Multiset.coe_eq_coe]
  have h1 : ((List.range xs.length).map (cardRank xs) : Multiset ℕ)
      = Multiset.map (cardRank xs) (Finset.range xs.length).val := by
    rfl
  rw [h1, ← Finset.image_val_of_injOn (cardRank_injOn xs), cardRank_image]
  rfl

lemma rankFirst_eq_map (xs : List ℚ) :
    rankFirst xs
      = ((List.range xs.length).map (cardRank xs)).map (fun m : ℕ => 1 + (m : ℚ)) := by
  unfold rankFirst
  rw [List.map_map]
  apply List.map_congr_left
  intro i _
  simp [rankOfIdx_eq_cardRank]

lemma rankFirst_perm (xs : List ℚ) :
    List.Perm (rankFirst xs)
      ((List.range xs.length).map (fun m : ℕ => 1 + (m : ℚ))) := by
  rw [rankFirst_eq_map]
  exact (map_cardRank_perm xs).map (fun m : ℕ => 1 + (m : ℚ))

lemma rankFirst_nodup (xs : List ℚ) : (rankFirst xs).Nodup := by
  refine (rankFirst_perm xs).nodup_iff.2 ?_
  refine List.Nodup.map ?_ (List.nodup_range xs.length)
  intro a b hab
  have hab2 : (1 : ℚ) + (a : ℚ) = 1 + (b : ℚ) := hab
  have hab3 : (a : ℚ) = (b : ℚ) := by linarith
  exact_mod_cast hab3

lemma target_sorted (n : ℕ) :
    ((List.range n).map (fun m : ℕ => 1 + (m : ℚ))).Sorted (fun a b => a ≤ b) := by
  rw [List.Sorted, List.pairwise_map]
  refine (List.pairwise_lt_range n).imp ?_
  intro a b hab
  have : (a : ℚ) < (b : ℚ) := by exact_mod_cast hab
  linarith

lemma sort_rankFirst (xs : List ℚ) :
    List.insertionSort (fun a b => a ≤ b) (rankFirst xs)
      = (List.range xs.length).map (fun m : ℕ => 1 + (m : ℚ)) := by
  apply List.eq_of_perm_of_sorted
    ((List.perm_insertionSort _ _).trans (rankFirst_perm xs))
    (List.sorted_insertionSort _ _) (target_sorted xs.length)

lemma target_getD_lt (n k : ℕ) (hk : k < n) :
    ∀ d : ℚ, ((List.range n).map (fun m : ℕ => 1 + (m : ℚ))).getD k d = 1 + (k : ℚ) := by
  intro d
  have hk' : k < ((List.range n).map (fun m : ℕ => 1 + (m : ℚ))).length := by
    simpa using hk
  rw [List.getD_eq_getElem _ _ hk', List.getElem_map, List.getElem_range]

lemma target_getD_ge (n k : ℕ) (hk : n ≤ k) :
    ∀ d : ℚ, ((List.range n).map (fun m : ℕ => 1 + (m : ℚ))).getD k d = d := by
  intro d
  apply List.getD_eq_default
  simpa using hk

lemma quantileSorted_eq (s : List ℚ) (p : ℚ) :
    quantileSorted s p
      = s.getD (⌊p * ((s.length : ℚ) - 1)⌋).toNat 0
        + (p * ((s.length : ℚ) - 1) - (((⌊p * ((s.length : ℚ) - 1)⌋).toNat : ℕ) : ℚ))
          * (s.getD ((⌊p * ((s.length : ℚ) - 1)⌋).toNat + 1)
              (s.getD (⌊p * ((s.length : ℚ) - 1)⌋).toNat 0)
            - s.getD (⌊p * ((s.length : ℚ) - 1)⌋).toNat 0) := rfl

lemma quantile_target (n : ℕ) (hn : 1 ≤ n) (p : ℚ) (h0 : 0 ≤ p) (h1 : p ≤ 1) :
    quantileSorted ((List.range n).map (fun m : ℕ => 1 + (m : ℚ))) p
      = 1 + p * ((n : ℚ) - 1) := by
  have hlen : ((List.range n).map (fun m : ℕ => 1 + (m : ℚ))).length = n := by
    simp
  rw [quantileSorted_eq, hlen]
  have hn1 : (0 : ℚ) ≤ (n : ℚ) - 1 := by
    have hcast : (1 : ℚ) ≤ (n : ℚ) := by exact_mod_cast hn
    linarith
  have hh0 : 0 ≤ p * ((n : ℚ) - 1) := mul_nonneg h0 hn1
  have hfl0 : 0 ≤ ⌊p * ((n : ℚ) - 1)⌋ := Int.floor_nonneg.2 hh0
  have hicast : (((⌊p * ((n : ℚ) - 1)⌋).toNat : ℕ) : ℚ)
      = ((⌊p * ((n : ℚ) - 1)⌋ : ℤ) : ℚ) := by
    exact_mod_cast Int.toNat_of_nonneg hfl0
  have hile : (((⌊p * ((n : ℚ) - 1)⌋).toNat : ℕ) : ℚ) ≤ p * ((n : ℚ) - 1) := by
    rw [hicast]; exact Int.floor_le _
  have hhle : p * ((n : ℚ) - 1) ≤ (n : ℚ) - 1 := by nlinarith
  have hfloorle : ⌊p * ((n : ℚ) - 1)⌋ ≤ (n : ℤ) - 1 := by
    have h2 : ⌊p * ((n : ℚ) - 1)⌋ ≤ ⌊((n : ℚ) - 1)⌋ := Int.floor_le_floor hhle
    have h3 : ⌊((n : ℚ) - 1)⌋ = (n : ℤ) - 1 := by
      rw [show ((n : ℚ) - 1) = (((n : ℤ) - 1 : ℤ) : ℚ) by push_cast; ring]
      exact Int.floor_intCast _
    omega
  have hilt : (⌊p * ((n : ℚ) - 1)⌋).toNat < n := by omega
  rw [target_getD_lt n _ hilt]
  rcases Nat.lt_or_ge ((⌊p * ((n : ℚ) - 1)⌋).toNat + 1) n with hlt | hge
  · rw [target_getD_lt n _ hlt]
    push_cast
    ring
  · rw [target_getD_ge n _ hge]
    have hieq : (⌊p * ((n : ℚ) - 1)⌋).toNat = n - 1 := by omega
    have h4 : (((⌊p * ((n : ℚ) - 1)⌋).toNat : ℕ) : ℚ) = ((n : ℚ) - 1) := by
      rw [hieq]
      push_cast [Nat.cast_sub hn]
      ring
    have h5 : p * ((n : ℚ) - 1) = (((⌊p * ((n : ℚ) - 1)⌋).toNat : ℕ) : ℚ) := by
      linarith [h4.le, h4.ge]
    rw [← h5]
    ring

lemma binIndex_lt_five (es : List ℚ) (v : ℚ) : binIndex es v < 5 := by
  unfold binIndex
  split_ifs <;> omega

lemma getD_mem_nat : ∀ (l : List ℕ) (k : ℕ), k < l.length → l.getD k 0 ∈ l
  | [], k, h => absurd h (by simp)
  | a :: l, 0, _ => List.mem_cons_self a l
  | a :: l, k + 1, h =>
      List.mem_cons_of_mem a (getD_mem_nat l k (by simpa using h))

lemma getD_map_bin (f : ℚ → ℕ) :
    ∀ (l : List ℚ) (k : ℕ), k < l.length → (l.map f).getD k 0 = f (l.getD k 0)
  | [], k, h => absurd h (by simp)
  | a :: l, 0, _ => rfl
  | a :: l, k + 1, h => getD_map_bin f l k (by simpa using h)

lemma qcut5_rankFirst_eq (xs : List ℚ) (h5 : 5 ≤ xs.length) (labels : List ℕ) :
    qcut5 (rankFirst xs) labels
      = some ((rankFirst xs).map
          (fun v => labels.getD (binIndex (qcutEdges (rankFirst xs)) v) 0)) := by
  have hn1 : 1 ≤ xs.length := by omega
  have hlen : (rankFirst xs).length = xs.length := by simp [rankFirst]
  have hedges : qcutEdges (rankFirst xs)
      = [1 + 0 * ((xs.length : ℚ) - 1), 1 + 1/5 * ((xs.length : ℚ) - 1),
         1 + 2/5 * ((xs.length : ℚ) - 1), 1 + 3/5 * ((xs.length : ℚ) - 1),
         1 + 4/5 * ((xs.length : ℚ) - 1), 1 + 1 * ((xs.length : ℚ) - 1)] := by
    unfold qcutEdges
    rw [sort_rankFirst]
    simp only [List.map_cons, List.map_nil]
    rw [quantile_target xs.length hn1 0 (by norm_num) (by norm_num),
      quantile_target xs.length hn1 (1/5) (by norm_num) (by norm_num),
      quantile_target xs.length hn1 (2/5) (by norm_num) (by norm_num),
      quantile_target xs.length hn1 (3/5) (by norm_num) (by norm_num),
      quantile_target xs.length hn1 (4/5) (by norm_num) (by norm_num),
      quantile_target xs.length hn1 1 (by norm_num) (by norm_num)]
  have hpos : (0 : ℚ) < (xs.length : ℚ) - 1 := by
    have : (5 : ℚ) ≤ (xs.length : ℚ) := by exact_mod_cast h5
    linarith
  have hasc : strictAscB (qcutEdges (rankFirst xs)) = true := by
    rw [hedges]
    simp only [strictAscB, Bool.and_eq_true, decide_eq_true_eq]
    refine ⟨by linarith, by linarith, by linarith, by linarith, by linarith, trivial⟩
  have hq : qcut5 (rankFirst xs) labels
      = if strictAscB (qcutEdges (rankFirst xs))
        then some ((rankFirst xs).map (fun v =>
          labels.getD (binIndex (qcutEdges (rankFirst xs)) v) 0))
        else none := rfl
  rw [hq, hasc]
  simp

/-! ## Theorems for claim C9 -/

/-- C9.  With at least 5 distinct customers, rank(method='first') makes
the three ranked columns duplicate-free, the 5-quantile edges over the
ranks are strictly increasing so pd.qcut never hits duplicate bin edges,
the RFM table is produced (the except fallback returning an empty table
is unreachable), and every R, F, M score is one of the five labels, even
when a dimension has zero variance. -/
theorem rfm_five_customer_binning_safe (txns : List Txn)
    (h5 : 5 ≤ (customers txns).length) :
    (rankFirst (recencies txns)).Nodup
    ∧ (rankFirst (frequenciesQ txns)).Nodup
    ∧ (rankFirst (monetaries txns)).Nodup
    ∧ rfmRows txns ≠ []
    ∧ (rfmRows txns).length = (customers txns).length
    ∧ ∀ row ∈ rfmRows txns,
        row.Rscore ∈ ([5, 4, 3, 2, 1] : List ℕ)
        ∧ row.Fscore ∈ ([1, 2, 3, 4, 5] : List ℕ)
        ∧ row.Mscore ∈ ([1, 2, 3, 4, 5] : List ℕ) := by
  have hrl : (recencies txns).length = (customers txns).length := by
    simp [recencies]
  have hfl : (frequenciesQ txns).length = (customers txns).length := by
    simp [frequenciesQ]
  have hml : (monetaries txns).length = (customers txns).length := by
    simp [monetaries]
  have h5r : 5 ≤ (recencies txns).length := by omega
  have h5f : 5 ≤ (frequenciesQ txns).length := by omega
  have h5m : 5 ≤ (monetaries txns).length := by omega
  have hrows : rfmRows txns
      = (List.range (customers txns).length).map (fun i =>
          { customer_id := (customers txns).getD i ""
            Rscore := ((rankFirst (recencies txns)).map (fun v =>
              ([5, 4, 3, 2, 1] : List ℕ).getD
                (binIndex (qcutEdges (rankFirst (recencies txns))) v) 0)).getD i 0
            Fscore := ((rankFirst (frequenciesQ txns)).map (fun v =>
              ([1, 2, 3, 4, 5] : List ℕ).getD
                (binIndex (qcutEdges (rankFirst (frequenciesQ txns))) v) 0)).getD i 0
            Mscore := ((rankFirst (monetaries txns)).map (fun v =>
              ([1, 2, 3, 4, 5] : List ℕ).getD
                (binIndex (qcutEdges (rankFirst (monetaries txns))) v) 0)).getD i 0
            : RFMRow }) := by
    unfold rfmRows
    rw [qcut5_rankFirst_eq _ h5r, qcut5_rankFirst_eq _ h5f, qcut5_rankFirst_eq _ h5m]
    rfl
  refine ⟨rankFirst_nodup _, rankFirst_nodup _, rankFirst_nodup _, ?_, ?_, ?_⟩
  · rw [hrows]
    intro hnil
    have hlen0 := congrArg List.length hnil
    simp only [List.length_map, List.length_range, List.length_nil] at hlen0
    omega
  · rw [hrows]; simp
  · intro row hrow
    rw [hrows] at hrow
    obtain ⟨i, hi, rfl⟩ := List.mem_map.1 hrow
    have hin : i < (customers txns).length := List.mem_range.1 hi
    refine ⟨?_, ?_, ?_⟩
    · have hlt : i < (rankFirst (recencies txns)).length := by
        simp [rankFirst]; omega
      rw [getD_map_bin _ _ _ hlt]
      exact getD_mem_nat _ _ (by simpa using binIndex_lt_five _ _)
    · have hlt : i < (rankFirst (frequenciesQ txns)).length := by
        simp [rankFirst]; omega
      rw [getD_map_bin _ _ _ hlt]
      exact getD_mem_nat _ _ (by simpa using binIndex_lt_five _ _)
    · have hlt : i < (rankFirst (monetaries txns)).length := by
        simp [rankFirst]; omega
      rw [getD_map_bin _ _ _ hlt]
      exact getD_mem_nat _ _ (by simpa using binIndex_lt_five _ _)

/-- Witness for C9 on five customers whose frequency and monetary columns
have zero variance. -/
theorem rfm_five_customer_binning_safe_witness :
    5 ≤ (customers [⟨"a", 0, "P", 10⟩, ⟨"b", 1, "P", 10⟩, ⟨"c", 2, "P", 10⟩,
        ⟨"d", 3, "P", 10⟩, ⟨"e", 4, "P", 10⟩]).length
    ∧ rfmRows [⟨"a", 0, "P", 10⟩, ⟨"b", 1, "P", 10⟩, ⟨"c", 2, "P", 10⟩,
        ⟨"d", 3, "P", 10⟩, ⟨"e", 4, "P", 10⟩] ≠ [] :=
  ⟨by decide,
   (rfm_five_customer_binning_safe
      [⟨"a", 0, "P", 10⟩, ⟨"b", 1, "P", 10⟩, ⟨"c", 2, "P", 10⟩,
       ⟨"d", 3, "P", 10⟩, ⟨"e", 4, "P", 10⟩] (by decide)).2.2.2.1⟩

/-! ## Theorems for claim C2 -/

/-- C2 (amended).  The raw composite churn score equals the claimed
weighted sum except that its second term uses the raw frequency (the
customer's order count), not the 1-5 F score; spelled out over the raw
aggregations, and the spec's F-score formula differs from the code's by
exactly (frequency - F_score) x 8 x 0.20. -/
theorem churn_raw_score_formula (stdFn : List ℚ → Option ℚ) (txns : List Txn)
    (c : String) :
    churnRawScore stdFn txns c
      = recencyQ txns c * 0.25
        + (6 - ((txnsOf txns c).length : ℚ)) * 8 * 0.20
        + (6 - (MscoreOf txns c : ℚ)) * 8 * 0.20
        + (1 / ((((txnsOf txns c).length : ℚ)
            / ((daysSinceFirst txns c : ℤ) : ℚ) * 30) + 0.1)) * 100 * 0.15
        + (purchaseConsistency stdFn txns c).getD 1 * 20 * 0.10
        + (1 - ((uniqueProducts txns c : ℚ) / ((txnsOf txns c).length : ℚ)))
            * 50 * 0.10
    ∧ specChurnScoreWithFScore stdFn txns c - churnRawScore stdFn txns c
      = (((txnsOf txns c).length : ℚ) - (FscoreOf txns c : ℚ)) * 8 * 0.20 := by
  constructor
  · rfl
  · unfold churnRawScore specChurnScoreWithFScore frequencyN
    ring

set_option maxHeartbeats 3200000 in
/-- Counterexample for C2 as frozen: on five customers u1 to u5 where u2
has one order but F score 2, the code's composite and the claim's
F-score composite differ (by 1.6), so the raw composite is not the
claimed weighted sum of the F score. -/
theorem churn_formula_uses_raw_frequency_not_fscore :
    ("u2" ∈ customers [⟨"u1", 0, "P", 10⟩, ⟨"u2", 1, "P", 20⟩, ⟨"u3", 2, "P", 30⟩,
        ⟨"u4", 3, "P", 40⟩, ⟨"u5", 4, "P", 25⟩, ⟨"u5", 10, "P", 25⟩])
    ∧ churnRawScore stdZero
        [⟨"u1", 0, "P", 10⟩, ⟨"u2", 1, "P", 20⟩, ⟨"u3", 2, "P", 30⟩,
         ⟨"u4", 3, "P", 40⟩, ⟨"u5", 4, "P", 25⟩, ⟨"u5", 10, "P", 25⟩] "u2"
      ≠ specChurnScoreWithFScore stdZero
        [⟨"u1", 0, "P", 10⟩, ⟨"u2", 1, "P", 20⟩, ⟨"u3", 2, "P", 30⟩,
         ⟨"u4", 3, "P", 40⟩, ⟨"u5", 4, "P", 25⟩, ⟨"u5", 10, "P", 25⟩] "u2" := by
  refine ⟨by decide, ?_⟩
  have hdiff : specChurnScoreWithFScore stdZero
        [⟨"u1", 0, "P", 10⟩, ⟨"u2", 1, "P", 20⟩, ⟨"u3", 2, "P", 30⟩,
         ⟨"u4", 3, "P", 40⟩, ⟨"u5", 4, "P", 25⟩, ⟨"u5", 10, "P", 25⟩] "u2"
        - churnRawScore stdZero
        [⟨"u1", 0, "P", 10⟩, ⟨"u2", 1, "P", 20⟩, ⟨"u3", 2, "P", 30⟩,
         ⟨"u4", 3, "P", 40⟩, ⟨"u5", 4, "P", 25⟩, ⟨"u5", 10, "P", 25⟩] "u2"
      = (((txnsOf
          [⟨"u1", 0, "P", 10⟩, ⟨"u2", 1, "P", 20⟩, ⟨"u3", 2, "P", 30⟩,
           ⟨"u4", 3, "P", 40⟩, ⟨"u5", 4, "P", 25⟩, ⟨"u5", 10, "P", 25⟩] "u2").length
            : ℚ)
        - (FscoreOf
          [⟨"u1", 0, "P", 10⟩, ⟨"u2", 1, "P", 20⟩, ⟨"u3", 2, "P", 30⟩,
           ⟨"u4", 3, "P", 40⟩, ⟨"u5", 4, "P", 25⟩, ⟨"u5", 10, "P", 25⟩] "u2" : ℚ))
            * 8 * 0.20 := by
    unfold churnRawScore specChurnScoreWithFScore frequencyN
    ring
  have hfreq : (txnsOf
      [⟨"u1", 0, "P", 10⟩, ⟨"u2", 1, "P", 20⟩, ⟨"u3", 2, "P", 30⟩,
       ⟨"u4", 3, "P", 40⟩, ⟨"u5", 4, "P", 25⟩, ⟨"u5", 10, "P", 25⟩] "u2").length
      = 1 := by decide
  have hF : FscoreOf
      [⟨"u1", 0, "P", 10⟩, ⟨"u2", 1, "P", 20⟩, ⟨"u3", 2, "P", 30⟩,
       ⟨"u4", 3, "P", 40⟩, ⟨"u5", 4, "P", 25⟩, ⟨"u5", 10, "P", 25⟩] "u2" = 2 := by
    norm_num +decide [FscoreOf, rfmRows, qcut5, qcutEdges, quantileSorted,
      strictAscB, binIndex, rankFirst, rankOfIdx, rankLT, recencies,
      frequenciesQ, monetaries, recencyQ, frequencyN, monetaryQ, monetaryRaw,
      avgOrderValueQ, round2, round_eq, customers, uniqList, uniqAux, txnsOf,
      custDates, firstOrder, lastOrder, foldMin, foldMax, referenceDate,
      List.insertionSort, List.orderedInsert, strLe, charListLe, List.find?,
      List.range, List.range.loop, Bool.and_eq_true, decide_eq_true_eq,
      Int.toNat]
  rw [hfreq, hF] at hdiff
  intro heq
  rw [heq] at hdiff
  norm_num at hdiff

/-! ## Theorems for claim C10 -/

/-- C10 (amended).  Whenever the RFM table is nonempty and every raw
composite churn score is the same, the min-max normalization divides 0 by
0, so every churn_score of the returned table is NaN, no churn
probability and no risk tier is assigned, and the call still returns a
row per RFM customer without raising.  A single-customer dataset is NOT
an instance: there the quantile cut fails, the RFM table is empty, and
identify_churn_risk returns an empty table early (see the
counterexample). -/
theorem churn_equal_raw_scores_all_nan (stdFn : List ℚ → Option ℚ)
    (txns : List Txn) (hrows : rfmRows txns ≠ [])
    (hconst : ∀ x ∈ rawChurnScores stdFn txns,
      ∀ y ∈ rawChurnScores stdFn txns, x = y) :
    (churnTable stdFn txns).length = (rfmRows txns).length
    ∧ ∀ row ∈ churnTable stdFn txns,
        row.churn_score = none ∧ row.churn_probability = none
          ∧ row.risk_level = none := by
  have hne : rawChurnScores stdFn txns ≠ [] := by
    intro h
    exact hrows (List.map_eq_nil_iff.1 h)
  have hmm : foldMax 0 (rawChurnScores stdFn txns)
      - foldMin 0 (rawChurnScores stdFn txns) = 0 := by
    rw [hconst _ (foldMax_mem 0 hne) _ (foldMin_mem 0 hne)]
    ring
  have hnorm : ∀ x : ℚ, normalizedChurnScore stdFn txns x = none := by
    intro x
    unfold normalizedChurnScore nanDiv
    rw [hmm]
    simp
  have htab : churnTable stdFn txns
      = (rfmRows txns).map (fun r =>
          { customer_id := r.customer_id
            churn_score :=
              normalizedChurnScore stdFn txns
                (churnRawScore stdFn txns r.customer_id)
            churn_probability :=
              (normalizedChurnScore stdFn txns
                (churnRawScore stdFn txns r.customer_id)).map churnProbability
            risk_level :=
              riskCut (normalizedChurnScore stdFn txns
                (churnRawScore stdFn txns r.customer_id)) : ChurnRow }) := by
    unfold churnTable
    rw [if_neg hrows]
  constructor
  · rw [htab]
    simp
  · intro row hrow
    rw [htab] at hrow
    obtain ⟨r, hr, rfl⟩ := List.mem_map.1 hrow
    refine ⟨hnorm _, ?_, ?_⟩
    · rw [hnorm]
      rfl
    · rw [hnorm]
      rfl

set_option maxHeartbeats 1600000 in
/-- Counterexample for C10's single-customer example: with one customer
the quantile cut fails inside calculate_rfm, the RFM table is empty, and
identify_churn_risk returns an empty table, not a one-row table of NaN
churn scores. -/
theorem churn_single_customer_table_empty :
    (churnTable stdZero [⟨"solo", 0, "P", 5⟩]).length = 0
    ∧ (customers [⟨"solo", 0, "P", 5⟩]).length = 1
    ∧ (0 : ℕ) ≠ 1 := by
  refine ⟨?_, by decide, by decide⟩
  have hrfm : rfmRows [⟨"solo", 0, "P", 5⟩] = [] := by
    norm_num +decide [rfmRows, qcut5, qcutEdges, quantileSorted, strictAscB,
      binIndex, rankFirst, rankOfIdx, rankLT, recencies, frequenciesQ,
      monetaries, recencyQ, frequencyN, monetaryQ, monetaryRaw, round2,
      round_eq, customers, uniqList, uniqAux, txnsOf, custDates, firstOrder,
      lastOrder, foldMin, foldMax, referenceDate, List.insertionSort,
      List.orderedInsert, strLe, charListLe, List.range, List.range.loop,
      Bool.and_eq_true, decide_eq_true_eq, Int.toNat]
  unfold churnTable
  rw [if_pos hrfm]
  rfl

set_option maxHeartbeats 12000000 in
/-- Witness for C10: five customers v1 to v5 engineered so that every raw
composite score equals 958/101 (frequency offsets the M score, all other
indicators coincide); the std routine agrees with the true sample std on
every amounts list of this dataset (all constant). -/
theorem churn_equal_raw_scores_all_nan_witness :
    (rfmRows
        [⟨"v1", -8, "q1", 1⟩, ⟨"v1", -7, "q2", 1⟩, ⟨"v1", -6, "q3", 1⟩,
         ⟨"v1", -5, "q4", 1⟩, ⟨"v1", -4, "q5", 1⟩, ⟨"v1", 10, "q6", 1⟩,
         ⟨"v2", -5, "q1", 2⟩, ⟨"v2", -4, "q2", 2⟩, ⟨"v2", -3, "q3", 2⟩,
         ⟨"v2", -2, "q4", 2⟩, ⟨"v2", 10, "q5", 2⟩,
         ⟨"v3", -2, "q1", 3⟩, ⟨"v3", -1, "q2", 3⟩, ⟨"v3", 0, "q3", 3⟩,
         ⟨"v3", 10, "q4", 3⟩,
         ⟨"v4", 1, "q1", 5⟩, ⟨"v4", 2, "q2", 5⟩, ⟨"v4", 10, "q3", 5⟩,
         ⟨"v5", 4, "q1", 10⟩, ⟨"v5", 10, "q2", 10⟩] ≠ []
      ∧ ∀ x ∈ rawChurnScores stdZero
          [⟨"v1", -8, "q1", 1⟩, ⟨"v1", -7, "q2", 1⟩, ⟨"v1", -6, "q3", 1⟩,
           ⟨"v1", -5, "q4", 1⟩, ⟨"v1", -4, "q5", 1⟩, ⟨"v1", 10, "q6", 1⟩,
           ⟨"v2", -5, "q1", 2⟩, ⟨"v2", -4, "q2", 2⟩, ⟨"v2", -3, "q3", 2⟩,
           ⟨"v2", -2, "q4", 2⟩, ⟨"v2", 10, "q5", 2⟩,
           ⟨"v3", -2, "q1", 3⟩, ⟨"v3", -1, "q2", 3⟩, ⟨"v3", 0, "q3", 3⟩,
           ⟨"v3", 10, "q4", 3⟩,
           ⟨"v4", 1, "q1", 5⟩, ⟨"v4", 2, "q2", 5⟩, ⟨"v4", 10, "q3", 5⟩,
           ⟨"v5", 4, "q1", 10⟩, ⟨"v5", 10, "q2", 10⟩],
        ∀ y ∈ rawChurnScores stdZero
          [⟨"v1", -8, "q1", 1⟩, ⟨"v1", -7, "q2", 1⟩, ⟨"v1", -6, "q3", 1⟩,
           ⟨"v1", -5, "q4", 1⟩, ⟨"v1", -4, "q5", 1⟩, ⟨"v1", 10, "q6", 1⟩,
           ⟨"v2", -5, "q1", 2⟩, ⟨"v2", -4, "q2", 2⟩, ⟨"v2", -3, "q3", 2⟩,
           ⟨"v2", -2, "q4", 2⟩, ⟨"v2", 10, "q5", 2⟩,
           ⟨"v3", -2, "q1", 3⟩, ⟨"v3", -1, "q2", 3⟩, ⟨"v3", 0, "q3", 3⟩,
           ⟨"v3", 10, "q4", 3⟩,
           ⟨"v4", 1, "q1", 5⟩, ⟨"v4", 2, "q2", 5⟩, ⟨"v4", 10, "q3", 5⟩,
           ⟨"v5", 4, "q1", 10⟩, ⟨"v5", 10, "q2", 10⟩], x = y)
    ∧ (churnTable stdZero
        [⟨"v1", -8, "q1", 1⟩, ⟨"v1", -7, "q2", 1⟩, ⟨"v1", -6, "q3", 1⟩,
         ⟨"v1", -5, "q4", 1⟩, ⟨"v1", -4, "q5", 1⟩, ⟨"v1", 10, "q6", 1⟩,
         ⟨"v2", -5, "q1", 2⟩, ⟨"v2", -4, "q2", 2⟩, ⟨"v2", -3, "q3", 2⟩,
         ⟨"v2", -2, "q4", 2⟩, ⟨"v2", 10, "q5", 2⟩,
         ⟨"v3", -2, "q1", 3⟩, ⟨"v3", -1, "q2", 3⟩, ⟨"v3", 0, "q3", 3⟩,
         ⟨"v3", 10, "q4", 3⟩,
         ⟨"v4", 1, "q1", 5⟩, ⟨"v4", 2, "q2", 5⟩, ⟨"v4", 10, "q3", 5⟩,
         ⟨"v5", 4, "q1", 10⟩, ⟨"v5", 10, "q2", 10⟩]).length
      = (rfmRows
          [⟨"v1", -8, "q1", 1⟩, ⟨"v1", -7, "q2", 1⟩, ⟨"v1", -6, "q3", 1⟩,
           ⟨"v1", -5, "q4", 1⟩, ⟨"v1", -4, "q5", 1⟩, ⟨"v1", 10, "q6", 1⟩,
           ⟨"v2", -5, "q1", 2⟩, ⟨"v2", -4, "q2", 2⟩, ⟨"v2", -3, "q3", 2⟩,
           ⟨"v2", -2, "q4", 2⟩, ⟨"v2", 10, "q5", 2⟩,
           ⟨"v3", -2, "q1", 3⟩, ⟨"v3", -1, "q2", 3⟩, ⟨"v3", 0, "q3", 3⟩,
           ⟨"v3", 10, "q4", 3⟩,
           ⟨"v4", 1, "q1", 5⟩, ⟨"v4", 2, "q2", 5⟩, ⟨"v4", 10, "q3", 5⟩,
           ⟨"v5", 4, "q1", 10⟩, ⟨"v5", 10, "q2", 10⟩]).length := by
  have hrows : rfmRows
      [⟨"v1", -8, "q1", 1⟩, ⟨"v1", -7, "q2", 1⟩, ⟨"v1", -6, "q3", 1⟩,
       ⟨"v1", -5, "q4", 1⟩, ⟨"v1", -4, "q5", 1⟩, ⟨"v1", 10, "q6", 1⟩,
       ⟨"v2", -5, "q1", 2⟩, ⟨"v2", -4, "q2", 2⟩, ⟨"v2", -3, "q3", 2⟩,
       ⟨"v2", -2, "q4", 2⟩, ⟨"v2", 10, "q5", 2⟩,
       ⟨"v3", -2, "q1", 3⟩, ⟨"v3", -1, "q2", 3⟩, ⟨"v3", 0, "q3", 3⟩,
       ⟨"v3", 10, "q4", 3⟩,
       ⟨"v4", 1, "q1", 5⟩, ⟨"v4", 2, "q2", 5⟩, ⟨"v4", 10, "q3", 5⟩,
       ⟨"v5", 4, "q1", 10⟩, ⟨"v5", 10, "q2", 10⟩]
      = [⟨"v1", 5, 5, 1⟩, ⟨"v2", 4, 4, 2⟩, ⟨"v3", 3, 3, 3⟩,
         ⟨"v4", 2, 2, 4⟩, ⟨"v5", 1, 1, 5⟩] := by
    norm_num +decide [rfmRows, qcut5, qcutEdges, quantileSorted, strictAscB,
      binIndex, rankFirst, rankOfIdx, rankLT, recencies, frequenciesQ,
      monetaries, recencyQ, frequencyN, monetaryQ, monetaryRaw, round2,
      round_eq, customers, uniqList, uniqAux, txnsOf, custDates, firstOrder,
      lastOrder, foldMin, foldMax, referenceDate, List.insertionSort,
      List.orderedInsert, strLe, charListLe, List.range, List.range.loop,
      Bool.and_eq_true, decide_eq_true_eq, Int.toNat]
  have hs : rawChurnScores stdZero
      [⟨"v1", -8, "q1", 1⟩, ⟨"v1", -7, "q2", 1⟩, ⟨"v1", -6, "q3", 1⟩,
       ⟨"v1", -5, "q4", 1⟩, ⟨"v1", -4, "q5", 1⟩, ⟨"v1", 10, "q6", 1⟩,
       ⟨"v2", -5, "q1", 2⟩, ⟨"v2", -4, "q2", 2⟩, ⟨"v2", -3, "q3", 2⟩,
       ⟨"v2", -2, "q4", 2⟩, ⟨"v2", 10, "q5", 2⟩,
       ⟨"v3", -2, "q1", 3⟩, ⟨"v3", -1, "q2", 3⟩, ⟨"v3", 0, "q3", 3⟩,
       ⟨"v3", 10, "q4", 3⟩,
       ⟨"v4", 1, "q1", 5⟩, ⟨"v4", 2, "q2", 5⟩, ⟨"v4", 10, "q3", 5⟩,
       ⟨"v5", 4, "q1", 10⟩, ⟨"v5", 10, "q2", 10⟩]
      = [958/101, 958/101, 958/101, 958/101, 958/101] := by
    norm_num +decide [rawChurnScores, hrows, churnRawScore, MscoreOf,
      orderFrequency, daysSinceFirst, purchaseConsistency, purchaseDiversity,
      uniqueProducts, stdZero, avgOrderValueQ, recencyQ, frequencyN,
      monetaryRaw, round2, round_eq, txnsOf, custDates, firstOrder, lastOrder,
      foldMin, foldMax, referenceDate, uniqList, uniqAux, List.find?,
      Bool.and_eq_true, decide_eq_true_eq]
  have h1 : rfmRows
      [⟨"v1", -8, "q1", 1⟩, ⟨"v1", -7, "q2", 1⟩, ⟨"v1", -6, "q3", 1⟩,
       ⟨"v1", -5, "q4", 1⟩, ⟨"v1", -4, "q5", 1⟩, ⟨"v1", 10, "q6", 1⟩,
       ⟨"v2", -5, "q1", 2⟩, ⟨"v2", -4, "q2", 2⟩, ⟨"v2", -3, "q3", 2⟩,
       ⟨"v2", -2, "q4", 2⟩, ⟨"v2", 10, "q5", 2⟩,
       ⟨"v3", -2, "q1", 3⟩, ⟨"v3", -1, "q2", 3⟩, ⟨"v3", 0, "q3", 3⟩,
       ⟨"v3", 10, "q4", 3⟩,
       ⟨"v4", 1, "q1", 5⟩, ⟨"v4", 2, "q2", 5⟩, ⟨"v4", 10, "q3", 5⟩,
       ⟨"v5", 4, "q1", 10⟩, ⟨"v5", 10, "q2", 10⟩] ≠ [] := by
    rw [hrows]
    intro h
    exact absurd h (by simp)
  have h2 : ∀ x ∈ rawChurnScores stdZero
      [⟨"v1", -8, "q1", 1⟩, ⟨"v1", -7, "q2", 1⟩, ⟨"v1", -6, "q3", 1⟩,
       ⟨"v1", -5, "q4", 1⟩, ⟨"v1", -4, "q5", 1⟩, ⟨"v1", 10, "q6", 1⟩,
       ⟨"v2", -5, "q1", 2⟩, ⟨"v2", -4, "q2", 2⟩, ⟨"v2", -3, "q3", 2⟩,
       ⟨"v2", -2, "q4", 2⟩, ⟨"v2", 10, "q5", 2⟩,
       ⟨"v3", -2, "q1", 3⟩, ⟨"v3", -1, "q2", 3⟩, ⟨"v3", 0, "q3", 3⟩,
       ⟨"v3", 10, "q4", 3⟩,
       ⟨"v4", 1, "q1", 5⟩, ⟨"v4", 2, "q2", 5⟩, ⟨"v4", 10, "q3", 5⟩,
       ⟨"v5", 4, "q1", 10⟩, ⟨"v5", 10, "q2", 10⟩],
      ∀ y ∈ rawChurnScores stdZero
      [⟨"v1", -8, "q1", 1⟩, ⟨"v1", -7, "q2", 1⟩, ⟨"v1", -6, "q3", 1⟩,
       ⟨"v1", -5, "q4", 1⟩, ⟨"v1", -4, "q5", 1⟩, ⟨"v1", 10, "q6", 1⟩,
       ⟨"v2", -5, "q1", 2⟩, ⟨"v2", -4, "q2", 2⟩, ⟨"v2", -3, "q3", 2⟩,
       ⟨"v2", -2, "q4", 2⟩, ⟨"v2", 10, "q5", 2⟩,
       ⟨"v3", -2, "q1", 3⟩, ⟨"v3", -1, "q2", 3⟩, ⟨"v3", 0, "q3", 3⟩,
       ⟨"v3", 10, "q4", 3⟩,
       ⟨"v4", 1, "q1", 5⟩, ⟨"v4", 2, "q2", 5⟩, ⟨"v4", 10, "q3", 5⟩,
       ⟨"v5", 4, "q1", 10⟩, ⟨"v5", 10, "q2", 10⟩], x = y := by
    rw [hs]
    intro x hx y hy
    simp only [List.mem_cons, List.not_mem_nil, or_false] at hx hy
    rcases hx with hx | hx | hx | hx | hx <;>
      rcases hy with hy | hy | hy | hy | hy <;>
      rw [hx, hy]
  exact ⟨⟨h1, h2⟩,
    (churn_equal_raw_scores_all_nan stdZero _ h1 h2).1⟩
